import Mathlib

/-!
Shallow embedding of the wstunnel client (src/client.py): the idle-timeout
Watchdog, the per-client BaseServer session (shutdown future, outbound queue,
abort, data_received, the new_client task body as an event trace), the UDP
listener's demux table (datagram_received / upstream_lost), and the password /
URL helpers (get_passwd_from_file, update_url_with_passwd together with the
urllib.parse fragment they rely on).  Strings of the Python source are
modelled as `String` when opaque and as `List Char` where character-level
processing matters; bytes are modelled as `Nat` (values < 256).
-/

/-- Model of an `asyncio` Future as used for the shutdown signal: it holds an
optional result, and `set_result` raises `InvalidStateError` when the future
is already done (this is asyncio's documented behaviour). -/
structure Future where
  result : Option Bool
deriving DecidableEq

def Future.done (f : Future) : Bool := f.result.isSome

def Future.set_result (f : Future) (v : Bool) : Except String Future :=
  if f.done then Except.error "InvalidStateError" else Except.ok { result := some v }

/-- Watchdog from client.py: `timeout` threshold, counter `cnt`, and the
exception value raised on idle expiry (modelled as its message string). -/
structure Watchdog where
  timeout : Nat
  cnt : Nat
  exc : String
deriving DecidableEq

/-- Watchdog.reset: sets the counter back to zero. -/
def Watchdog.reset (w : Watchdog) : Watchdog := { w with cnt := 0 }

/-- One observable event of the Watchdog's life: a 1-second tick of the
`start` loop, or a `reset()` call from a liveness-producing activity. -/
inductive WdEvent
  | tick
  | reset
deriving DecidableEq

/-- One step of the Watchdog: `reset` zeroes the counter; `tick` performs one
iteration of the `start` loop body (`cnt += 1; if cnt == timeout: raise`). -/
def Watchdog.step (w : Watchdog) : WdEvent → Except String Watchdog
  | WdEvent.reset => Except.ok w.reset
  | WdEvent.tick =>
      let w2 : Watchdog := { w with cnt := w.cnt + 1 }
      if w2.cnt = w.timeout then Except.error w.exc else Except.ok w2

/-- Runs the Watchdog over a schedule of ticks and resets; an `error` is the
idle-failure exception escaping from `start`. -/
def Watchdog.run (w : Watchdog) : List WdEvent → Except String Watchdog
  | [] => Except.ok w
  | e :: es =>
      match w.step e with
      | Except.error s => Except.error s
      | Except.ok w2 => w2.run es

/-- The ssl.SSLContext built in BaseServer.__init__ for wss:// URLs. -/
structure SslContext where
  cafile : Option String
  client_cert : Option String
  minimum_version : String
deriving DecidableEq

/-- State of one BaseServer session: client identity, the shutdown future,
the outbound asyncio.Queue (FIFO, `put_nowait` appends, `get` pops the head),
the ssl parameter, and the fact that __init__ scheduled the `new_client`
task (it only calls `asyncio.create_task`, it does not await it). -/
structure BaseServer where
  client : String
  shutdown : Future
  que : List String
  ssl_param : Option SslContext
  new_client_scheduled : Bool
deriving DecidableEq

/-- BaseServer.__init__: creates an unset shutdown future and an empty queue,
builds the ssl parameter for wss:// URLs, and schedules (without running) the
`new_client` task.  The `f_write_to_transport` / `f_conn_lost` capabilities are
not part of the stored state (Python keeps them in the task closure); they
reappear in the `new_client` trace model below. -/
def BaseServer.init (client uri : String) (certfile client_cert : Option String)
    (idle_timeout : Nat) : BaseServer :=
  { client := client
    shutdown := { result := none }
    que := []
    ssl_param :=
      if uri.startsWith "wss://" then
        some { cafile := certfile, client_cert := client_cert, minimum_version := "TLSv1_2" }
      else none
    new_client_scheduled := true }

/-- BaseServer.data_received: `self.que.put_nowait(data)` — appends to the
FIFO queue, never blocks, never fails. -/
def BaseServer.data_received (s : BaseServer) (data : String) : BaseServer :=
  { s with que := s.que ++ [data] }

/-- BaseServer.abort: `self.shutdown.set_result(True)` — raises
`InvalidStateError` when the shutdown future is already done. -/
def BaseServer.abort (s : BaseServer) : Except String BaseServer :=
  (s.shutdown.set_result true).map fun f => { s with shutdown := f }

/-- Feeds a sequence of buffers to data_received in order. -/
def enqueueAll (s : BaseServer) (bs : List String) : BaseServer :=
  bs.foldl BaseServer.data_received s

/-- BaseServer.ws_data_sender run for `fuel` loop iterations against the
current queue contents: each iteration resets the watchdog (when present),
then sends the next queued buffer as one tunnel message; with the queue empty
the iteration suspends in `que.get()` and sends nothing.  Returns the list of
sent messages, the remaining queue, and the watchdog state. -/
def ws_data_sender : Nat → List String → Option Watchdog →
    List String × List String × Option Watchdog
  | 0, que, wd => ([], que, wd)
  | _ + 1, [], wd => ([], [], wd)
  | fuel + 1, b :: rest, wd =>
      let wd2 := wd.map Watchdog.reset
      let r := ws_data_sender fuel rest wd2
      (b :: r.1, r.2)

/-- The tasks BaseServer.new_client can spawn inside the websocket context. -/
inductive TaskKind
  | watchdog
  | sender
  | receiver
deriving DecidableEq

/-- Kind of exception carried by the first-settled racer: the watchdog's
ConnIdleTimeout, or any other exception (websocket/transport errors). -/
inductive ExcKind
  | connIdleTimeout
  | otherError
deriving DecidableEq

/-- Observable events of one execution of BaseServer.new_client. -/
inductive Ev
  | connectAttempt
  | spawn (t : TaskKind)
  | waitFirst
  | closeWs
  | logInfo
  | logError
  | cancelRequest (t : TaskKind)
  | awaitCancelled (t : TaskKind)
  | connLost (client : String)
deriving DecidableEq

/-- Recognizer for the "session ended" notification event. -/
def isConnLost : Ev → Bool
  | Ev.connLost _ => true
  | _ => false

/-- Environment resolving the nondeterminism of one new_client execution:
whether `websockets.connect` succeeds, the exception (if any) of the racer
that settles first, and whether the shutdown future is done by the time the
`finally` block runs (i.e. whether abort() has been called by then). -/
structure Env where
  client : String
  idle_timeout : Nat
  handshakeOk : Bool
  winnerExc : Option ExcKind
  shutdownDoneAtCleanup : Bool

/-- The tasks spawned inside the websocket context, in creation order: the
watchdog task only when idle_timeout is non-zero, then sender, then receiver. -/
def spawnedTasks (idle_timeout : Nat) : List TaskKind :=
  (if idle_timeout ≠ 0 then [TaskKind.watchdog] else []) ++
    [TaskKind.sender, TaskKind.receiver]

/-- The `finally` block of new_client: request cancellation of every spawned
task (`t.cancel()`, not awaited), then call `f_conn_lost(self.client)` if and
only if the shutdown future is not done. -/
def cleanupEvs (tasks : List TaskKind) (shutdownDone : Bool) (client : String) : List Ev :=
  tasks.map Ev.cancelRequest ++ (if shutdownDone then [] else [Ev.connLost client])

/-- Event trace of one execution of BaseServer.new_client.  When the
handshake fails, `websockets.connect` raises before any task is spawned, the
`except Exception` arm logs an error, and the finally block runs with an
empty task list.  When the handshake succeeds, tasks are spawned, the race
(`asyncio.wait(..., FIRST_COMPLETED)`) settles, the winner's exception (if
any) is re-raised out of the `async with` (closing the websocket) and logged
as info for ConnIdleTimeout and error otherwise, and the finally block runs. -/
def new_client (env : Env) : List Ev :=
  if env.handshakeOk then
    let tasks := spawnedTasks env.idle_timeout
    Ev.connectAttempt ::
      (tasks.map Ev.spawn ++ [Ev.waitFirst] ++
        (match env.winnerExc with
         | none => [Ev.closeWs]
         | some ExcKind.connIdleTimeout => [Ev.closeWs, Ev.logInfo]
         | some ExcKind.otherError => [Ev.closeWs, Ev.logError]) ++
        cleanupEvs tasks env.shutdownDoneAtCleanup env.client)
  else
    Ev.connectAttempt :: Ev.logError ::
      cleanupEvs [] env.shutdownDoneAtCleanup env.client

/-- UDP source address: the (host, port) pair used as demux key. -/
abbrev Addr := String × Nat

/-- Python dict lookup `d[a]` on the demux table, `none` for KeyError. -/
def dictGet (d : List (Addr × Nat)) (a : Addr) : Option Nat :=
  match d with
  | [] => none
  | (k, v) :: rest => if k = a then some v else dictGet rest a

/-- Python `d.pop(a)`: removes the entry and returns its value, `none` for
KeyError. -/
def dictPop (d : List (Addr × Nat)) (a : Addr) : Option (Nat × List (Addr × Nat)) :=
  match d with
  | [] => none
  | (k, v) :: rest =>
      if k = a then some (v, rest)
      else
        match dictPop rest a with
        | none => none
        | some (w, rest2) => some (w, (k, v) :: rest2)

/-- Applies data_received to the session with the given id. -/
def sessionsPut (ss : List (Nat × BaseServer)) (sid : Nat) (d : String) :
    List (Nat × BaseServer) :=
  ss.map fun p => if p.1 = sid then (p.1, p.2.data_received d) else p

/-- State of the UdpServer: the demux table `base_servers` (address →
session), the sessions themselves keyed by an id modelling Python object
identity, the next fresh id, and the stored constructor args.  The transport
(and the sendto / upstream_lost capabilities wired into each BaseServer) are
not part of the state. -/
structure UdpServer where
  base_servers : List (Addr × Nat)
  sessions : List (Nat × BaseServer)
  nextId : Nat
  uri : String
  certfile : Option String
  client_cert : Option String
  idle_timeout : Nat

/-- UdpServer.datagram_received: looks the source address up in
base_servers; on KeyError creates a fresh BaseServer and inserts it; in both
cases forwards the datagram to that session's data_received. -/
def UdpServer.datagram_received (u : UdpServer) (data : String) (addr : Addr) : UdpServer :=
  match dictGet u.base_servers addr with
  | some sid => { u with sessions := sessionsPut u.sessions sid data }
  | none =>
      let sid := u.nextId
      let base := (BaseServer.init (toString addr) u.uri u.certfile u.client_cert
        u.idle_timeout).data_received data
      { u with
          base_servers := u.base_servers ++ [(addr, sid)]
          sessions := u.sessions ++ [(sid, base)]
          nextId := sid + 1 }

/-- UdpServer.upstream_lost: `self.base_servers.pop(addr)` — raises KeyError
when the address has no entry. -/
def UdpServer.upstream_lost (u : UdpServer) (addr : Addr) : Except String UdpServer :=
  match dictPop u.base_servers addr with
  | none => Except.error "KeyError"
  | some (_, d2) => Except.ok { u with base_servers := d2 }

/-- Invariant of the demux table: addresses are unique keys (a dict maps each
key to at most one value) and every stored session id is below nextId. -/
def UdpInv (u : UdpServer) : Prop :=
  (u.base_servers.map Prod.fst).Nodup ∧ ∀ p ∈ u.base_servers, p.2 < u.nextId

/-- Python file.readline() on the (newline-translated) text: the chars up to
and including the first newline, or the whole text when none occurs. -/
def readline : List Char → List Char
  | [] => []
  | c :: cs => if c = '\n' then [c] else c :: readline cs

/-- Python str.rstrip of the two characters CR and LF: removes every trailing
character that is CR or LF. -/
def rstripCRLF (s : List Char) : List Char :=
  (s.reverse.dropWhile (fun c => c = '\r' || c = '\n')).reverse

/-- get_passwd_from_file over the file's text content: readline of the first
line, then rstrip of the CR/LF strip set. -/
def get_passwd_from_file (content : List Char) : List Char :=
  rstripCRLF (readline content)

/-- Python str.lower on one character (ASCII range, as used on schemes). -/
def lowerChar (c : Char) : Char :=
  if 'A' ≤ c ∧ c ≤ 'Z' then Char.ofNat (c.toNat + 32) else c

def isAsciiAlpha (c : Char) : Bool :=
  ('a' ≤ c && c ≤ 'z') || ('A' ≤ c && c ≤ 'Z')

/-- urllib scheme_chars: letters, digits, plus, minus, dot. -/
def isSchemeChar (c : Char) : Bool :=
  isAsciiAlpha c || c.isDigit || c = '+' || c = '-' || c = '.'

/-- True for characters that may appear inside a netloc (everything except
the three delimiters '/', '?' and '#' that _splitnetloc stops at). -/
def netlocOk (c : Char) : Bool :=
  !(c = '/' || c = '?' || c = '#')

/-- Splits a char list at the first occurrence of `p`: returns the part
before it and, when found, the part after it. -/
def splitAtFirst (p : Char) : List Char → List Char × Option (List Char)
  | [] => ([], none)
  | c :: cs =>
      if c = p then ([], some cs)
      else
        let r := splitAtFirst p cs
        (c :: r.1, r.2)

/-- Splits at the last occurrence of `p`: when found returns (before, after)
with `p` in neither... the after part contains no `p`. -/
def splitAtLast (p : Char) (l : List Char) : Option (List Char × List Char) :=
  match splitAtFirst p l.reverse with
  | (_, none) => none
  | (rb, some ra) => some (ra.reverse, rb.reverse)

/-- The scheme-detection step of urlsplit: split at the first ':' and accept
the prefix as scheme when it is non-empty, starts with a letter and consists
of scheme characters, lowercasing it; otherwise no scheme. -/
def splitScheme (url : List Char) : List Char × List Char :=
  match splitAtFirst ':' url with
  | (pre, some post) =>
      if !pre.isEmpty && isAsciiAlpha (pre.headD ' ') && pre.all isSchemeChar then
        (pre.map lowerChar, post)
      else ([], url)
  | (_, none) => ([], url)

/-- The netloc step of urlsplit: when the rest starts with //, the netloc is
everything up to the next '/', '?' or '#'. -/
def splitNetloc2 (rest : List Char) : List Char × List Char :=
  match rest with
  | c1 :: c2 :: r =>
      if c1 = '/' ∧ c2 = '/' then (r.takeWhile netlocOk, r.dropWhile netlocOk)
      else ([], rest)
  | _ => ([], rest)

/-- The fragment step of urlsplit: split at the first '#' when present. -/
def splitFragment (l : List Char) : List Char × List Char :=
  match splitAtFirst '#' l with
  | (a, some b) => (a, b)
  | (a, none) => (a, [])

/-- The query step of urlsplit: split at the first '?' when present. -/
def splitQuery (l : List Char) : List Char × List Char :=
  match splitAtFirst '?' l with
  | (a, some b) => (a, b)
  | (a, none) => (a, [])

structure SplitResult where
  scheme : List Char
  netloc : List Char
  path : List Char
  query : List Char
  fragment : List Char
deriving DecidableEq

/-- urllib.parse.urlsplit: scheme, then netloc, then fragment, then query. -/
def urlsplit (url : List Char) : SplitResult :=
  let p1 := splitScheme url
  let p2 := splitNetloc2 p1.2
  let p3 := splitFragment p2.2
  let p4 := splitQuery p3.1
  ⟨p1.1, p2.1, p4.1, p4.2, p3.2⟩

/-- urllib.parse._splitparams: the params are what follows the first ';' of
the last path segment (after the last '/'; the whole string when no '/'). -/
def splitparams (url : List Char) : List Char × List Char :=
  if '/' ∈ url then
    match splitAtLast '/' url with
    | some (a, b) =>
        (match splitAtFirst ';' b with
         | (b1, some b2) => (a ++ '/' :: b1, b2)
         | (_, none) => (url, []))
    | none => (url, [])
  else
    match splitAtFirst ';' url with
    | (u1, some u2) => (u1, u2)
    | (_, none) => (url, [])

structure ParseResult where
  scheme : List Char
  netloc : List Char
  path : List Char
  params : List Char
  query : List Char
  fragment : List Char
deriving DecidableEq

/-- urllib.parse.urlparse: urlsplit plus the params split on the path. -/
def urlparse (url : List Char) : ParseResult :=
  let s := urlsplit url
  let pp := if ';' ∈ s.path then splitparams s.path else (s.path, [])
  ⟨s.scheme, s.netloc, pp.1, pp.2, s.query, s.fragment⟩

/-- urllib.parse.urlunsplit. -/
def urlunsplit (s : SplitResult) : List Char :=
  let url1 :=
    if s.netloc ≠ [] ∨ s.path.take 2 = ['/', '/'] then
      '/' :: '/' ::
        (s.netloc ++ (if s.path ≠ [] ∧ s.path.headD ' ' ≠ '/' then '/' :: s.path else s.path))
    else s.path
  let url2 := if s.scheme ≠ [] then s.scheme ++ ':' :: url1 else url1
  let url3 := if s.query ≠ [] then url2 ++ '?' :: s.query else url2
  if s.fragment ≠ [] then url3 ++ '#' :: s.fragment else url3

/-- urllib.parse.urlunparse: re-attach params to the path, then urlunsplit. -/
def urlunparse (p : ParseResult) : List Char :=
  urlunsplit
    ⟨p.scheme, p.netloc,
      (if p.params ≠ [] then p.path ++ ';' :: p.params else p.path),
      p.query, p.fragment⟩

/-- quote's always-safe bytes: ASCII letters, digits, underscore, dot,
hyphen, tilde. -/
def alwaysSafeByte (b : Nat) : Bool :=
  decide ((48 ≤ b ∧ b ≤ 57) ∨ (65 ≤ b ∧ b ≤ 90) ∨ (97 ≤ b ∧ b ≤ 122) ∨
    b = 45 ∨ b = 46 ∨ b = 95 ∨ b = 126)

/-- Uppercase hex digit of a value below 16 (as %-escapes use). -/
def hexDigit (n : Nat) : Char :=
  if n < 10 then Char.ofNat (48 + n) else Char.ofNat (55 + n)

/-- UTF-8 encoding of one character, as byte values. -/
def utf8Bytes (c : Char) : List Nat :=
  let n := c.toNat
  if n < 128 then [n]
  else if n < 2048 then [192 + n / 64, 128 + n % 64]
  else if n < 65536 then [224 + n / 4096, 128 + n / 64 % 64, 128 + n % 64]
  else [240 + n / 262144, 128 + n / 4096 % 64, 128 + n / 64 % 64, 128 + n % 64]

/-- Concat-map over a list (used for byte-wise quoting). -/
def flatList {α β : Type} (f : α → List β) : List α → List β
  | [] => []
  | a :: as => f a ++ flatList f as

/-- quote_plus on one byte: space becomes '+', always-safe bytes stay
themselves, everything else is %XX with uppercase hex. -/
def quoteByteP (b : Nat) : List Char :=
  if b = 32 then ['+']
  else if alwaysSafeByte b then [Char.ofNat b]
  else ['%', hexDigit (b / 16), hexDigit (b % 16)]

/-- urllib.parse.quote_plus with empty safe string: byte-wise quoting of the
UTF-8 encoding. -/
def quote_plus (s : List Char) : List Char :=
  flatList quoteByteP (flatList utf8Bytes s)

/-- urllib.parse.urlencode over an association list (quote_via=quote_plus):
k=v pairs joined by '&'. -/
def urlencode : List (List Char × List Char) → List Char
  | [] => []
  | [kv] => quote_plus kv.1 ++ '=' :: quote_plus kv.2
  | kv :: rest => quote_plus kv.1 ++ '=' :: quote_plus kv.2 ++ '&' :: urlencode rest

/-- update_url_with_passwd: parse the url, replace its query with the
urlencoding of the singleton dict, and unparse. -/
def update_url_with_passwd (url passwd : List Char) : List Char :=
  let u := urlparse url
  urlunparse ⟨u.scheme, u.netloc, u.path, u.params, urlencode [(['t'], passwd)], u.fragment⟩

/-- Well-formedness of a scheme for the round-trip arguments: non-empty,
letter-initial, scheme characters only, already lowercase. -/
def validScheme (s : List Char) : Prop :=
  s ≠ [] ∧ isAsciiAlpha (s.headD ' ') = true ∧ s.all isSchemeChar = true ∧
    s.map lowerChar = s

lemma watchdog_run_append (w : Watchdog) (es fs : List WdEvent) :
    w.run (es ++ fs) =
      match w.run es with
      | Except.error s => Except.error s
      | Except.ok w2 => w2.run fs := by
  induction es generalizing w with
  | nil => simp [Watchdog.run]
  | cons e es ih =>
      simp only [List.cons_append, Watchdog.run]
      cases hs : w.step e with
      | error s => simp
      | ok w2 => simpa using ih w2

lemma watchdog_run_append_ok (w w2 : Watchdog) (es fs : List WdEvent)
    (h : w.run es = Except.ok w2) : w.run (es ++ fs) = w2.run fs := by
  rw [watchdog_run_append, h]

lemma watchdog_run_reset_cons (w : Watchdog) (fs : List WdEvent) :
    w.run (WdEvent.reset :: fs) = (w.reset).run fs := by
  simp [Watchdog.run, Watchdog.step]

lemma watchdog_run_ticks (N c k : Nat) (e : String) (h : c + k < N) :
    Watchdog.run ⟨N, c, e⟩ (List.replicate k WdEvent.tick) = Except.ok ⟨N, c + k, e⟩ := by
  induction k generalizing c with
  | zero => simp [Watchdog.run]
  | succ k ih =>
      have hc : ¬ (c + 1 = N) := by omega
      have h2 : (c + 1) + k < N := by omega
      have heq : c + 1 + k = c + (k + 1) := by omega
      simp only [List.replicate_succ, Watchdog.run, Watchdog.step, if_neg hc]
      rw [← heq]
      exact ih (c + 1) h2

lemma watchdog_run_fire (d : Nat) : ∀ c N e, c + d = N → 0 < d →
    Watchdog.run ⟨N, c, e⟩ (List.replicate d WdEvent.tick) = Except.error e := by
  induction d with
  | zero => intro c N e h hd; omega
  | succ d ih =>
      intro c N e h _
      by_cases hc : c + 1 = N
      · rcases Nat.eq_zero_or_pos d with hd0 | hd0
        · subst hd0
          simp [List.replicate_succ, Watchdog.run, Watchdog.step, hc]
        · omega
      · have hd2 : 0 < d := by omega
        have h2 : (c + 1) + d = N := by omega
        simp only [List.replicate_succ, Watchdog.run, Watchdog.step, if_neg hc]
        exact ih (c + 1) N e h2 hd2

lemma watchdog_run_ok_inv (es : List WdEvent) : ∀ w w2 : Watchdog,
    w.run es = Except.ok w2 → w2.timeout = w.timeout ∧ w2.exc = w.exc := by
  induction es with
  | nil =>
      intro w w2 h
      simp only [Watchdog.run] at h
      cases h
      exact ⟨rfl, rfl⟩
  | cons e es ih =>
      intro w w2 h
      simp only [Watchdog.run] at h
      cases hs : w.step e with
      | error s => rw [hs] at h; cases h
      | ok w1 =>
          rw [hs] at h
          have h1 := ih w1 w2 h
          have hst : w1.timeout = w.timeout ∧ w1.exc = w.exc := by
            cases e with
            | reset =>
                simp only [Watchdog.step] at hs
                cases hs
                exact ⟨rfl, rfl⟩
            | tick =>
                simp only [Watchdog.step] at hs
                split at hs
                · cases hs
                · cases hs; exact ⟨rfl, rfl⟩
          exact ⟨h1.1.trans hst.1, h1.2.trans hst.2⟩

/-- C6: for every positive threshold N, the Watchdog's run activity
increments its counter once per tick and completes with the idle-failure
exactly when the counter reaches N, i.e. after N consecutive ticks with no
reset; a reset sets the counter back to zero so the count restarts from
zero. -/
theorem watchdog_idle_exact (N : Nat) (e : String) (hN : 0 < N) :
    (∀ k, k < N → Watchdog.run ⟨N, 0, e⟩ (List.replicate k WdEvent.tick) =
        Except.ok ⟨N, k, e⟩) ∧
    Watchdog.run ⟨N, 0, e⟩ (List.replicate N WdEvent.tick) = Except.error e ∧
    ∀ es w2, Watchdog.run ⟨N, 0, e⟩ es = Except.ok w2 →
      (∀ k, k < N →
        Watchdog.run ⟨N, 0, e⟩ (es ++ WdEvent.reset :: List.replicate k WdEvent.tick) =
          Except.ok ⟨N, k, e⟩) ∧
      Watchdog.run ⟨N, 0, e⟩ (es ++ WdEvent.reset :: List.replicate N WdEvent.tick) =
        Except.error e := by
  refine ⟨fun k hk => ?_, ?_, fun es w2 h => ?_⟩
  · simpa using watchdog_run_ticks N 0 k e (by omega)
  · exact watchdog_run_fire N 0 N e (by omega) hN
  · have hinv := watchdog_run_ok_inv es ⟨N, 0, e⟩ w2 h
    have hres : w2.reset = (⟨N, 0, e⟩ : Watchdog) := by
      cases w2
      simp only [Watchdog.reset]
      simp only at hinv
      simp [hinv.1, hinv.2]
    constructor
    · intro k hk
      rw [watchdog_run_append_ok _ _ _ _ h, watchdog_run_reset_cons, hres]
      simpa using watchdog_run_ticks N 0 k e (by omega)
    · rw [watchdog_run_append_ok _ _ _ _ h, watchdog_run_reset_cons, hres]
      exact watchdog_run_fire N 0 N e (by omega) hN

theorem watchdog_idle_exact_witness :
    0 < 2 ∧
    ((∀ k, k < 2 → Watchdog.run ⟨2, 0, "idled"⟩ (List.replicate k WdEvent.tick) =
        Except.ok ⟨2, k, "idled"⟩) ∧
      Watchdog.run ⟨2, 0, "idled"⟩ (List.replicate 2 WdEvent.tick) = Except.error "idled" ∧
      ∀ es w2, Watchdog.run ⟨2, 0, "idled"⟩ es = Except.ok w2 →
        (∀ k, k < 2 →
          Watchdog.run ⟨2, 0, "idled"⟩ (es ++ WdEvent.reset :: List.replicate k WdEvent.tick) =
            Except.ok ⟨2, k, "idled"⟩) ∧
        Watchdog.run ⟨2, 0, "idled"⟩ (es ++ WdEvent.reset :: List.replicate 2 WdEvent.tick) =
          Except.error "idled") :=
  ⟨by decide, watchdog_idle_exact 2 "idled" (by decide)⟩

lemma new_client_connLost_countP (env : Env) :
    (new_client env).countP isConnLost = if env.shutdownDoneAtCleanup then 0 else 1 := by
  rcases env with ⟨c, it, hs, we, sd⟩
  by_cases hit : it = 0 <;> cases hs <;> cases sd <;>
      rcases we with _ | ek <;> try cases ek
  all_goals
    simp [new_client, cleanupEvs, spawnedTasks, isConnLost, hit,
      List.countP_append, List.countP_cons]

lemma new_client_connLost_count (env : Env) :
    (new_client env).count (Ev.connLost env.client) =
      if env.shutdownDoneAtCleanup then 0 else 1 := by
  rcases env with ⟨c, it, hs, we, sd⟩
  by_cases hit : it = 0 <;> cases hs <;> cases sd <;>
      rcases we with _ | ek <;> try cases ek
  all_goals
    simp [new_client, cleanupEvs, spawnedTasks, hit,
      List.count_append, List.count_cons]

/-- C2: for every session whose cleanup runs with the shutdown signal unset
(termination not caused by abort, including the case where the tunnel
handshake itself fails), the "notify session ended" capability is invoked
exactly once, with the session's identity; if the shutdown signal was set by
abort it is invoked zero times. -/
theorem session_ended_notification (env : Env) :
    (new_client env).countP isConnLost = (if env.shutdownDoneAtCleanup then 0 else 1) ∧
    (new_client env).count (Ev.connLost env.client) =
      (if env.shutdownDoneAtCleanup then 0 else 1) :=
  ⟨new_client_connLost_countP env, new_client_connLost_count env⟩

/-- C1 counterexample: the claim says a second abort() is a failure-free
no-op, but on a fresh session aborting twice raises InvalidStateError from
shutdown.set_result. -/
theorem abort_twice_counterexample :
    ((BaseServer.init "c" "ws://example" none none 0).abort >>= BaseServer.abort) =
      Except.error "InvalidStateError" := by
  rfl

/-- C1 amended: the first abort() transitions the shutdown signal from unset
to set; a second abort() on the same session raises InvalidStateError
instead of being a no-op; and whenever the shutdown signal is set by
cleanup time the "ended" notification is invoked zero times. -/
theorem abort_sets_once_then_raises (s : BaseServer) (h : s.shutdown.done = false) :
    s.abort = Except.ok { s with shutdown := { result := some true } } ∧
    BaseServer.abort { s with shutdown := { result := some true } } =
      Except.error "InvalidStateError" ∧
    ∀ env : Env, env.shutdownDoneAtCleanup = true →
      (new_client env).count (Ev.connLost env.client) = 0 := by
  refine ⟨?_, ?_, fun env he => ?_⟩
  · simp [BaseServer.abort, Future.set_result, h, Except.map]
  · simp [BaseServer.abort, Future.set_result, Future.done, Except.map]
  · rw [new_client_connLost_count env, he]
    rfl

theorem abort_sets_once_then_raises_witness :
    (BaseServer.init "c" "ws://h" none none 0).shutdown.done = false ∧
    ((BaseServer.init "c" "ws://h" none none 0).abort =
        Except.ok { BaseServer.init "c" "ws://h" none none 0 with
          shutdown := { result := some true } } ∧
      BaseServer.abort { BaseServer.init "c" "ws://h" none none 0 with
          shutdown := { result := some true } } = Except.error "InvalidStateError" ∧
      ∀ env : Env, env.shutdownDoneAtCleanup = true →
        (new_client env).count (Ev.connLost env.client) = 0) := by
  exact ⟨rfl, abort_sets_once_then_raises (BaseServer.init "c" "ws://h" none none 0) rfl⟩

/-- C9 counterexample: with idle_timeout 1, a successful handshake and an
idle-timeout winner, the trace cancels the spawned tasks but never awaits
their cancellation, so the claim that every cancellation is awaited to
completion before the session finishes fails. -/
theorem cancellation_not_awaited_counterexample :
    ¬ (∀ t ∈ spawnedTasks 1,
        Ev.cancelRequest t ∈ new_client ⟨"c", 1, true, some ExcKind.connIdleTimeout, false⟩ ∧
        Ev.awaitCancelled t ∈ new_client ⟨"c", 1, true, some ExcKind.connIdleTimeout, false⟩) := by
  decide

/-- C9 amended: when the race settles, the finally block requests
cancellation of every spawned activity of the session before the session
finishes, but the completion of those cancellations is not awaited. -/
theorem cancellation_requested_not_awaited (env : Env) (h : env.handshakeOk = true) :
    (∀ t ∈ spawnedTasks env.idle_timeout, Ev.cancelRequest t ∈ new_client env) ∧
    (∀ t : TaskKind, Ev.awaitCancelled t ∉ new_client env) := by
  rcases env with ⟨c, it, hs, we, sd⟩
  simp only at h
  subst h
  constructor
  · intro t ht
    have h1 : Ev.cancelRequest t ∈ cleanupEvs (spawnedTasks it) sd c :=
      List.mem_append_left _ (List.mem_map_of_mem _ ht)
    unfold new_client
    rcases we with _ | ek <;> try cases ek
    all_goals (try simp [List.mem_cons, List.mem_append])
    all_goals tauto
  · intro t hmem
    rcases we with _ | ek <;> try cases ek
    all_goals cases sd <;> simp [new_client, cleanupEvs, spawnedTasks] at hmem

theorem cancellation_requested_not_awaited_witness :
    (⟨"c", 1, true, some ExcKind.connIdleTimeout, false⟩ : Env).handshakeOk = true ∧
    ((∀ t ∈ spawnedTasks (⟨"c", 1, true, some ExcKind.connIdleTimeout, false⟩ : Env).idle_timeout,
        Ev.cancelRequest t ∈ new_client ⟨"c", 1, true, some ExcKind.connIdleTimeout, false⟩) ∧
      (∀ t : TaskKind,
        Ev.awaitCancelled t ∉ new_client ⟨"c", 1, true, some ExcKind.connIdleTimeout, false⟩)) := by
  exact ⟨rfl, cancellation_requested_not_awaited
    ⟨"c", 1, true, some ExcKind.connIdleTimeout, false⟩ rfl⟩

lemma enqueueAll_que (bs : List String) : ∀ s : BaseServer, (enqueueAll s bs).que = s.que ++ bs := by
  induction bs with
  | nil => intro s; simp [enqueueAll]
  | cons b bs ih =>
      intro s
      show (enqueueAll (s.data_received b) bs).que = _
      rw [ih]
      simp [BaseServer.data_received]

lemma ws_data_sender_take (fuel : Nat) : ∀ (que : List String) (wd : Option Watchdog),
    (ws_data_sender fuel que wd).1 = que.take fuel ∧
    (ws_data_sender fuel que wd).2.1 = que.drop fuel := by
  induction fuel with
  | zero => intro que wd; simp [ws_data_sender]
  | succ fuel ih =>
      intro que wd
      cases que with
      | nil => simp [ws_data_sender]
      | cons b rest =>
          have h := ih rest (wd.map Watchdog.reset)
          simp [ws_data_sender, h.1, h.2]

/-- C3: for every sequence of buffers b1..bn passed to a session's
data_received (starting from an empty queue), running the sender for n
iterations sends exactly n tunnel messages, content-identical to and in the
same order as b1..bn, leaving the queue empty. -/
theorem sender_fifo (s : BaseServer) (bs : List String) (wd : Option Watchdog)
    (h : s.que = []) :
    (ws_data_sender bs.length (enqueueAll s bs).que wd).1 = bs ∧
    (ws_data_sender bs.length (enqueueAll s bs).que wd).1.length = bs.length ∧
    (ws_data_sender bs.length (enqueueAll s bs).que wd).2.1 = [] := by
  have hq : (enqueueAll s bs).que = bs := by rw [enqueueAll_que, h]; simp
  rw [hq]
  have ht := ws_data_sender_take bs.length bs wd
  refine ⟨?_, ?_, ?_⟩
  · rw [ht.1, List.take_length]
  · rw [ht.1, List.take_length]
  · rw [ht.2, List.drop_length]

theorem sender_fifo_witness :
    (BaseServer.init "c" "ws://h" none none 0).que = [] ∧
    ((ws_data_sender (["a", "b"] : List String).length
        (enqueueAll (BaseServer.init "c" "ws://h" none none 0) ["a", "b"]).que none).1 =
        ["a", "b"] ∧
      (ws_data_sender (["a", "b"] : List String).length
        (enqueueAll (BaseServer.init "c" "ws://h" none none 0) ["a", "b"]).que none).1.length =
        (["a", "b"] : List String).length ∧
      (ws_data_sender (["a", "b"] : List String).length
        (enqueueAll (BaseServer.init "c" "ws://h" none none 0) ["a", "b"]).que none).2.1 = []) := by
  exact ⟨rfl, sender_fifo (BaseServer.init "c" "ws://h" none none 0) ["a", "b"] none rfl⟩

/-- C5: construction only schedules the tunnel handshake (it returns a state
with the new_client task scheduled and nothing sent) and starts with an empty
queue, and every buffer passed to data_received before the tunnel connection
is established is retained in the queue and sent, in full, once the sender
runs after the connection is established. -/
theorem init_schedules_and_retains (client uri : String) (certfile cc : Option String)
    (it : Nat) (bs : List String) (wd : Option Watchdog) :
    (BaseServer.init client uri certfile cc it).new_client_scheduled = true ∧
    (BaseServer.init client uri certfile cc it).que = [] ∧
    (BaseServer.init client uri certfile cc it).shutdown.done = false ∧
    (ws_data_sender bs.length (enqueueAll (BaseServer.init client uri certfile cc it) bs).que wd).1
      = bs := by
  refine ⟨rfl, rfl, rfl, ?_⟩
  have hq : (enqueueAll (BaseServer.init client uri certfile cc it) bs).que = bs := by
    rw [enqueueAll_que]; rfl
  rw [hq, (ws_data_sender_take bs.length bs wd).1, List.take_length]

lemma dictGet_eq_none (d : List (Addr × Nat)) (a : Addr) :
    dictGet d a = none ↔ a ∉ d.map Prod.fst := by
  induction d with
  | nil => simp [dictGet]
  | cons kv rest ih =>
      obtain ⟨k, v⟩ := kv
      simp only [dictGet, List.map_cons, List.mem_cons]
      by_cases hk : k = a
      · subst hk
        simp
      · rw [if_neg hk, ih]
        have hka : ¬ (a = k) := fun hh => hk hh.symm
        tauto

lemma dictGet_mem (d : List (Addr × Nat)) (a : Addr) (v : Nat)
    (h : dictGet d a = some v) : (a, v) ∈ d := by
  induction d with
  | nil => simp [dictGet] at h
  | cons kv rest ih =>
      obtain ⟨k, w⟩ := kv
      by_cases hk : k = a
      · subst hk
        simp [dictGet] at h
        simp [h]
      · simp [dictGet, hk] at h
        exact List.mem_cons_of_mem _ (ih h)

lemma dictGet_append_single (d : List (Addr × Nat)) (a : Addr) (v : Nat)
    (h : dictGet d a = none) : dictGet (d ++ [(a, v)]) a = some v := by
  induction d with
  | nil => simp [dictGet]
  | cons kv rest ih =>
      obtain ⟨k, w⟩ := kv
      by_cases hk : k = a
      · subst hk
        simp [dictGet] at h
      · simp [dictGet, hk] at h ⊢
        exact ih h

lemma dictPop_none (d : List (Addr × Nat)) (a : Addr)
    (h : dictGet d a = none) : dictPop d a = none := by
  induction d with
  | nil => simp [dictPop]
  | cons kv rest ih =>
      obtain ⟨k, w⟩ := kv
      by_cases hk : k = a
      · subst hk
        simp [dictGet] at h
      · simp [dictGet, hk] at h
        simp [dictPop, hk, ih h]

lemma dictPop_of_get (d : List (Addr × Nat)) (a : Addr) (sid : Nat)
    (hnd : (d.map Prod.fst).Nodup) (h : dictGet d a = some sid) :
    ∃ d2, dictPop d a = some (sid, d2) ∧ dictGet d2 a = none ∧
      (d2.map Prod.fst).Nodup ∧ ∀ p ∈ d2, p ∈ d := by
  induction d with
  | nil => simp [dictGet] at h
  | cons kv rest ih =>
      obtain ⟨k, v⟩ := kv
      simp only [List.map_cons, List.nodup_cons] at hnd
      by_cases hk : k = a
      · subst hk
        simp [dictGet] at h
        subst h
        refine ⟨rest, by simp [dictPop], ?_, hnd.2, fun p hp => List.mem_cons_of_mem _ hp⟩
        rw [dictGet_eq_none]
        exact hnd.1
      · simp only [dictGet, if_neg hk] at h
        obtain ⟨d2, h1, h2, h3, h4⟩ := ih hnd.2 h
        refine ⟨(k, v) :: d2, ?_, ?_, ?_, ?_⟩
        · simp [dictPop, hk, h1]
        · simp [dictGet, hk, h2]
        · simp only [List.map_cons, List.nodup_cons]
          refine ⟨?_, h3⟩
          intro hmem
          apply hnd.1
          simp only [List.mem_map] at hmem ⊢
          obtain ⟨p, hp, hpk⟩ := hmem
          exact ⟨p, h4 p hp, hpk⟩
        · intro p hp
          rcases List.mem_cons.mp hp with h | h
          · simp [h]
          · exact List.mem_cons_of_mem _ (h4 p h)

/-- C4: the UDP demux table holds at most one live session per source
address: a datagram from an unseen address inserts exactly one new entry, a
datagram from a known address leaves the table unchanged, upstream_lost
removes the entry (after which the address resolves to nothing), and a later
datagram from the same address after removal creates a fresh session whose
identity differs from the ended one; the table invariant (unique addresses,
session ids below nextId) is preserved throughout. -/
theorem udp_demux_table (u : UdpServer) (d : String) (addr : Addr) (hinv : UdpInv u) :
    (dictGet u.base_servers addr = none →
      (u.datagram_received d addr).base_servers = u.base_servers ++ [(addr, u.nextId)] ∧
      dictGet (u.datagram_received d addr).base_servers addr = some u.nextId ∧
      UdpInv (u.datagram_received d addr)) ∧
    (∀ sid, dictGet u.base_servers addr = some sid →
      (u.datagram_received d addr).base_servers = u.base_servers ∧
      UdpInv (u.datagram_received d addr)) ∧
    (∀ sid, dictGet u.base_servers addr = some sid →
      ∃ u2, u.upstream_lost addr = Except.ok u2 ∧
        dictGet u2.base_servers addr = none ∧
        u2.nextId = u.nextId ∧
        UdpInv u2 ∧
        dictGet (u2.datagram_received d addr).base_servers addr = some u2.nextId ∧
        sid ≠ u2.nextId) := by
  obtain ⟨hnd, hids⟩ := hinv
  refine ⟨fun h => ?_, fun sid h => ?_, fun sid h => ?_⟩
  · have hbs : (u.datagram_received d addr).base_servers = u.base_servers ++ [(addr, u.nextId)] := by
      simp [UdpServer.datagram_received, h]
    have hnx : (u.datagram_received d addr).nextId = u.nextId + 1 := by
      simp [UdpServer.datagram_received, h]
    refine ⟨hbs, ?_, ?_⟩
    · rw [hbs]
      exact dictGet_append_single _ _ _ h
    · refine ⟨?_, ?_⟩
      · rw [hbs, List.map_append]
        refine List.Nodup.append hnd (by simp) ?_
        simp only [List.map_cons, List.map_nil, List.disjoint_singleton]
        exact (dictGet_eq_none _ _).mp h
      · rw [hbs, hnx]
        intro p hp
        rcases List.mem_append.mp hp with hm | hm
        · exact Nat.lt_succ_of_lt (hids p hm)
        · simp at hm
          simp [hm]
  · have hbs : (u.datagram_received d addr).base_servers = u.base_servers := by
      simp [UdpServer.datagram_received, h]
    have hnx : (u.datagram_received d addr).nextId = u.nextId := by
      simp [UdpServer.datagram_received, h]
    exact ⟨hbs, by rw [UdpInv, hbs, hnx]; exact ⟨hnd, hids⟩⟩
  · obtain ⟨d2, hpop, hget2, hnd2, hsub⟩ := dictPop_of_get _ _ _ hnd h
    refine ⟨{ u with base_servers := d2 }, ?_, hget2, rfl, ⟨hnd2, ?_⟩, ?_, ?_⟩
    · simp [UdpServer.upstream_lost, hpop]
    · intro p hp
      exact hids p (hsub p hp)
    · have hbs2 : (({ u with base_servers := d2 } : UdpServer).datagram_received d
          addr).base_servers = d2 ++ [(addr, u.nextId)] := by
        simp [UdpServer.datagram_received, hget2]
      rw [hbs2]
      exact dictGet_append_single _ _ _ hget2
    · have hlt : sid < u.nextId := hids _ (dictGet_mem _ _ _ h)
      show sid ≠ u.nextId
      omega

theorem udp_demux_table_witness :
    UdpInv ⟨[(("h", 1), 0)], [], 1, "ws://x", none, none, 0⟩ ∧
    ((dictGet (⟨[(("h", 1), 0)], [], 1, "ws://x", none, none, 0⟩ : UdpServer).base_servers
        ("h", 2) = none →
      ((⟨[(("h", 1), 0)], [], 1, "ws://x", none, none, 0⟩ : UdpServer).datagram_received
        "dat" ("h", 2)).base_servers = [(("h", 1), 0)] ++ [(("h", 2), 1)] ∧
      dictGet ((⟨[(("h", 1), 0)], [], 1, "ws://x", none, none, 0⟩ : UdpServer).datagram_received
        "dat" ("h", 2)).base_servers ("h", 2) = some 1 ∧
      UdpInv ((⟨[(("h", 1), 0)], [], 1, "ws://x", none, none, 0⟩ : UdpServer).datagram_received
        "dat" ("h", 2))) ∧
    (∀ sid, dictGet (⟨[(("h", 1), 0)], [], 1, "ws://x", none, none, 0⟩ : UdpServer).base_servers
        ("h", 2) = some sid →
      ((⟨[(("h", 1), 0)], [], 1, "ws://x", none, none, 0⟩ : UdpServer).datagram_received
        "dat" ("h", 2)).base_servers = [(("h", 1), 0)] ∧
      UdpInv ((⟨[(("h", 1), 0)], [], 1, "ws://x", none, none, 0⟩ : UdpServer).datagram_received
        "dat" ("h", 2))) ∧
    (∀ sid, dictGet (⟨[(("h", 1), 0)], [], 1, "ws://x", none, none, 0⟩ : UdpServer).base_servers
        ("h", 2) = some sid →
      ∃ u2, (⟨[(("h", 1), 0)], [], 1, "ws://x", none, none, 0⟩ : UdpServer).upstream_lost
          ("h", 2) = Except.ok u2 ∧
        dictGet u2.base_servers ("h", 2) = none ∧
        u2.nextId = (⟨[(("h", 1), 0)], [], 1, "ws://x", none, none, 0⟩ : UdpServer).nextId ∧
        UdpInv u2 ∧
        dictGet (u2.datagram_received "dat" ("h", 2)).base_servers ("h", 2) = some u2.nextId ∧
        sid ≠ u2.nextId)) := by
  refine ⟨⟨by decide, by decide⟩, ?_⟩
  exact udp_demux_table ⟨[(("h", 1), 0)], [], 1, "ws://x", none, none, 0⟩ "dat" ("h", 2)
    ⟨by decide, by decide⟩

/-- C10: invoking upstream_lost with an address that has no entry in the
demux table raises KeyError (dict.pop with no default) instead of being a
no-op. -/
theorem upstream_lost_missing_raises (u : UdpServer) (addr : Addr)
    (h : dictGet u.base_servers addr = none) :
    u.upstream_lost addr = Except.error "KeyError" := by
  simp [UdpServer.upstream_lost, dictPop_none u.base_servers addr h]

theorem upstream_lost_missing_raises_witness :
    dictGet ((⟨[], [], 0, "ws://x", none, none, 0⟩ : UdpServer)).base_servers ("h", 1) = none ∧
    (⟨[], [], 0, "ws://x", none, none, 0⟩ : UdpServer).upstream_lost ("h", 1) =
      Except.error "KeyError" :=
  ⟨rfl, upstream_lost_missing_raises ⟨[], [], 0, "ws://x", none, none, 0⟩ ("h", 1) rfl⟩

lemma readline_append (s rest : List Char) (h : '\n' ∉ s) :
    readline (s ++ '\n' :: rest) = s ++ ['\n'] := by
  induction s with
  | nil => simp [readline]
  | cons c cs ih =>
      have hc : c ≠ '\n' := fun he => h (he ▸ List.mem_cons_self c cs)
      have hcs : '\n' ∉ cs := fun hm => h (List.mem_cons_of_mem _ hm)
      simp only [List.cons_append, readline, if_neg hc, List.append_eq]
      rw [ih hcs]

/-- C7: a password file whose first line is secret123 followed by a trailing
newline (and arbitrary further content) yields the credential secret123:
only the first line is read, the trailing newline is stripped, the urlencoded
query component is exactly t=secret123, the resulting tunnel URL parses back
with query exactly t=secret123, and the encoded credential contains no
embedded newline or carriage return. -/
theorem passwd_first_line (rest : List Char) :
    get_passwd_from_file ("secret123\n".toList ++ rest) = "secret123".toList ∧
    urlencode [("t".toList, get_passwd_from_file ("secret123\n".toList ++ rest))] =
      "t=secret123".toList ∧
    (urlparse (update_url_with_passwd "wss://example.com/tunnel".toList
        (get_passwd_from_file ("secret123\n".toList ++ rest)))).query = "t=secret123".toList ∧
    ∀ c ∈ urlencode [("t".toList, get_passwd_from_file ("secret123\n".toList ++ rest))],
      c ≠ '\n' ∧ c ≠ '\r' := by
  have h0 : "secret123\n".toList = "secret123".toList ++ ['\n'] := by decide
  have hsplit : "secret123\n".toList ++ rest = "secret123".toList ++ '\n' :: rest := by
    rw [h0, List.append_assoc]
    rfl
  have h1 : get_passwd_from_file ("secret123\n".toList ++ rest) = "secret123".toList := by
    rw [hsplit]
    show rstripCRLF (readline ("secret123".toList ++ '\n' :: rest)) = _
    rw [readline_append _ _ (by decide)]
    decide
  refine ⟨h1, ?_, ?_, ?_⟩ <;> rw [h1] <;> decide

lemma splitAtFirst_not_mem (p : Char) (l : List Char) (h : p ∉ l) :
    splitAtFirst p l = (l, none) := by
  induction l with
  | nil => rfl
  | cons c cs ih =>
      have hc : ¬ (c = p) := fun he => h (he ▸ List.mem_cons_self c cs)
      have hcs : p ∉ cs := fun hm => h (List.mem_cons_of_mem _ hm)
      simp [splitAtFirst, hc, ih hcs]

lemma splitAtFirst_append (p : Char) (a b : List Char) (h : p ∉ a) :
    splitAtFirst p (a ++ p :: b) = (a, some b) := by
  induction a with
  | nil => simp [splitAtFirst]
  | cons c cs ih =>
      have hc : ¬ (c = p) := fun he => h (he ▸ List.mem_cons_self c cs)
      have hcs : p ∉ cs := fun hm => h (List.mem_cons_of_mem _ hm)
      simp [splitAtFirst, hc, ih hcs]

lemma takeWhile_all_append (p : Char → Bool) (a b : List Char)
    (ha : ∀ c ∈ a, p c = true)
    (hb : ∀ c cs, b = c :: cs → p c = false) :
    (a ++ b).takeWhile p = a ∧ (a ++ b).dropWhile p = b := by
  induction a with
  | nil =>
      cases b with
      | nil => simp
      | cons c cs =>
          have hc := hb c cs rfl
          simp [List.takeWhile_cons, List.dropWhile_cons, hc]
  | cons c cs ih =>
      have hc := ha c (List.mem_cons_self c cs)
      have ih2 := ih fun x hx => ha x (List.mem_cons_of_mem _ hx)
      simp [List.takeWhile_cons, List.dropWhile_cons, hc, ih2.1, ih2.2]

lemma splitScheme_valid (scheme R : List Char) (hs : validScheme scheme) :
    splitScheme (scheme ++ ':' :: R) = (scheme, R) := by
  obtain ⟨hne, halpha, hall, hlow⟩ := hs
  have hcolon : (':' : Char) ∉ scheme := by
    intro hm
    have h1 := List.all_eq_true.mp hall _ hm
    exact absurd h1 (by decide)
  obtain ⟨c, cs, rfl⟩ : ∃ c cs, scheme = c :: cs := by
    cases scheme with
    | nil => exact absurd rfl hne
    | cons c cs => exact ⟨c, cs, rfl⟩
  simp only [splitScheme, splitAtFirst_append _ _ _ hcolon]
  have hcond : (!(c :: cs).isEmpty && isAsciiAlpha ((c :: cs).headD ' ') &&
      (c :: cs).all isSchemeChar) = true := by
    simp only [List.isEmpty_cons, Bool.not_false, List.headD_cons, Bool.true_and]
    rw [List.headD_cons] at halpha
    rw [halpha, hall]
    rfl
  rw [if_pos hcond, hlow]

lemma splitNetloc2_append (netloc tail : List Char) (hn2 : netloc.all netlocOk = true)
    (htail : ∀ c cs, tail = c :: cs → netlocOk c = false) :
    splitNetloc2 ('/' :: '/' :: (netloc ++ tail)) = (netloc, tail) := by
  have h := takeWhile_all_append netlocOk netloc tail (List.all_eq_true.mp hn2) htail
  simp [splitNetloc2, h.1, h.2]

lemma splitFragment_found (a b : List Char) (h : '#' ∉ a) :
    splitFragment (a ++ '#' :: b) = (a, b) := by
  simp [splitFragment, splitAtFirst_append _ _ _ h]

lemma splitFragment_none (a : List Char) (h : '#' ∉ a) :
    splitFragment a = (a, []) := by
  simp [splitFragment, splitAtFirst_not_mem _ _ h]

lemma splitQuery_found (a b : List Char) (h : '?' ∉ a) :
    splitQuery (a ++ '?' :: b) = (a, b) := by
  simp [splitQuery, splitAtFirst_append _ _ _ h]

lemma splitQuery_none (a : List Char) (h : '?' ∉ a) :
    splitQuery a = (a, []) := by
  simp [splitQuery, splitAtFirst_not_mem _ _ h]

lemma head_append_netlocOk (path tl : List Char)
    (hpath : path = [] ∨ path.headD ' ' = '/')
    (htl : ∀ c cs, tl = c :: cs → netlocOk c = false) :
    ∀ c cs, path ++ tl = c :: cs → netlocOk c = false := by
  intro c cs hc
  cases path with
  | nil => exact htl c cs hc
  | cons p0 ps =>
      have hp0 : p0 = '/' := by
        rcases hpath with h | h
        · exact (List.cons_ne_nil p0 ps h).elim
        · simpa using h
      rw [List.cons_append] at hc
      injection hc with h1 _
      rw [← h1, hp0]
      decide

lemma urlsplit_roundtrip (scheme netloc path query fragment : List Char)
    (hs : validScheme scheme)
    (hn : netloc ≠ []) (hn2 : netloc.all netlocOk = true)
    (hpath : path = [] ∨ path.headD ' ' = '/')
    (hpq : '?' ∉ path) (hph : '#' ∉ path)
    (hqh : '#' ∉ query) :
    urlsplit (urlunsplit ⟨scheme, netloc, path, query, fragment⟩) =
      ⟨scheme, netloc, path, query, fragment⟩ := by
  have hpath2 : ¬ path = [] → path.head?.getD ' ' = '/' := by
    intro hne
    rcases hpath with h | h
    · exact absurd h hne
    · simpa using h
  by_cases hq0 : query = [] <;> by_cases hf0 : fragment = []
  · -- no query, no fragment
    subst hq0; subst hf0
    have hS : urlunsplit ⟨scheme, netloc, path, [], []⟩ =
        scheme ++ ':' :: '/' :: '/' :: (netloc ++ path) := by
      simp [urlunsplit, hn, hs.1]
      exact hpath2
    have htailp : ∀ c cs, path = c :: cs → netlocOk c = false := by
      intro c cs h
      rcases hpath with h0 | h0
      · rw [h0] at h; cases h
      · rw [h] at h0
        simp only [List.headD_cons] at h0
        rw [h0]; decide
    have e1 := splitScheme_valid scheme ('/' :: '/' :: (netloc ++ path)) hs
    have e2 := splitNetloc2_append netloc path hn2 htailp
    have e3 := splitFragment_none path hph
    have e4 := splitQuery_none path hpq
    rw [hS]
    simp [urlsplit, e1, e2, e3, e4]
  · -- no query, fragment present
    subst hq0
    have hS : urlunsplit ⟨scheme, netloc, path, [], fragment⟩ =
        scheme ++ ':' :: '/' :: '/' :: (netloc ++ (path ++ '#' :: fragment)) := by
      simp [urlunsplit, hn, hs.1, hf0, List.append_assoc]
      exact hpath2
    have htail : ∀ c cs, path ++ '#' :: fragment = c :: cs → netlocOk c = false :=
      head_append_netlocOk path ('#' :: fragment) hpath (by
        rintro c cs h
        injection h with h1 _
        rw [← h1]; decide)
    have e1 := splitScheme_valid scheme ('/' :: '/' :: (netloc ++ (path ++ '#' :: fragment))) hs
    have e2 := splitNetloc2_append netloc (path ++ '#' :: fragment) hn2 htail
    have e3 := splitFragment_found path fragment hph
    have e4 := splitQuery_none path hpq
    rw [hS]
    simp [urlsplit, e1, e2, e3, e4]
  · -- query present, no fragment
    subst hf0
    have hS : urlunsplit ⟨scheme, netloc, path, query, []⟩ =
        scheme ++ ':' :: '/' :: '/' :: (netloc ++ (path ++ '?' :: query)) := by
      simp [urlunsplit, hn, hs.1, hq0, List.append_assoc]
      exact hpath2
    have htail : ∀ c cs, path ++ '?' :: query = c :: cs → netlocOk c = false :=
      head_append_netlocOk path ('?' :: query) hpath (by
        rintro c cs h
        injection h with h1 _
        rw [← h1]; decide)
    have hnh : '#' ∉ path ++ '?' :: query := by
      intro hm
      rcases List.mem_append.mp hm with h | h
      · exact hph h
      · rcases List.mem_cons.mp h with h | h
        · exact absurd h (by decide)
        · exact hqh h
    have e1 := splitScheme_valid scheme ('/' :: '/' :: (netloc ++ (path ++ '?' :: query))) hs
    have e2 := splitNetloc2_append netloc (path ++ '?' :: query) hn2 htail
    have e3 := splitFragment_none (path ++ '?' :: query) hnh
    have e4 := splitQuery_found path query hpq
    rw [hS]
    simp [urlsplit, e1, e2, e3, e4]
  · -- query and fragment both present
    have hS : urlunsplit ⟨scheme, netloc, path, query, fragment⟩ =
        scheme ++ ':' :: '/' :: '/' ::
          (netloc ++ (path ++ '?' :: (query ++ '#' :: fragment))) := by
      simp [urlunsplit, hn, hs.1, hq0, hf0, List.append_assoc]
      exact hpath2
    have htail : ∀ c cs, path ++ '?' :: (query ++ '#' :: fragment) = c :: cs →
        netlocOk c = false :=
      head_append_netlocOk path ('?' :: (query ++ '#' :: fragment)) hpath (by
        rintro c cs h
        injection h with h1 _
        rw [← h1]; decide)
    have hnh : '#' ∉ path ++ '?' :: query := by
      intro hm
      rcases List.mem_append.mp hm with h | h
      · exact hph h
      · rcases List.mem_cons.mp h with h | h
        · exact absurd h (by decide)
        · exact hqh h
    have hassoc : path ++ '?' :: (query ++ '#' :: fragment) =
        (path ++ '?' :: query) ++ '#' :: fragment := by
      simp [List.append_assoc]
    have e1 := splitScheme_valid scheme
      ('/' :: '/' :: (netloc ++ (path ++ '?' :: (query ++ '#' :: fragment)))) hs
    have e2 := splitNetloc2_append netloc (path ++ '?' :: (query ++ '#' :: fragment)) hn2 htail
    have e3 : splitFragment (path ++ '?' :: (query ++ '#' :: fragment)) =
        (path ++ '?' :: query, fragment) := by
      rw [hassoc]
      exact splitFragment_found _ _ hnh
    have e4 := splitQuery_found path query hpq
    rw [hS]
    simp [urlsplit, e1, e2, e3, e4]

lemma urlparse_roundtrip (scheme netloc path query fragment : List Char)
    (hs : validScheme scheme)
    (hn : netloc ≠ []) (hn2 : netloc.all netlocOk = true)
    (hpath : path = [] ∨ path.headD ' ' = '/')
    (hpq : '?' ∉ path) (hph : '#' ∉ path) (hps : ';' ∉ path)
    (hqh : '#' ∉ query) :
    urlparse (urlunparse ⟨scheme, netloc, path, [], query, fragment⟩) =
      ⟨scheme, netloc, path, [], query, fragment⟩ := by
  have hun : urlunparse ⟨scheme, netloc, path, [], query, fragment⟩ =
      urlunsplit ⟨scheme, netloc, path, query, fragment⟩ := by
    simp [urlunparse]
  rw [hun]
  simp only [urlparse,
    urlsplit_roundtrip scheme netloc path query fragment hs hn hn2 hpath hpq hph hqh]
  simp [hps]

lemma charToNat_ofNat (n : Nat) (h : n < 55296) : (Char.ofNat n).toNat = n := by
  have hv : n.isValidChar := Or.inl h
  rw [Char.ofNat, dif_pos hv]
  simp [Char.ofNatAux, Char.toNat]
  rfl

lemma char_toNat_lt (c : Char) : c.toNat < 1114112 := by
  rcases c.valid with h | ⟨h1, h2⟩
  · have h3 : c.val.toNat < (55296 : UInt32).toNat := by
      simpa [UInt32.lt_def, BitVec.lt_def] using h
    simp only [Char.toNat]
    omega
  · have h3 : c.val.toNat < (1114112 : UInt32).toNat := by
      simpa [UInt32.lt_def, BitVec.lt_def] using h2
    simp only [Char.toNat]
    omega

lemma utf8Bytes_lt256 (c : Char) : ∀ b ∈ utf8Bytes c, b < 256 := by
  intro b hb
  have hn := char_toNat_lt c
  simp only [utf8Bytes] at hb
  split_ifs at hb with h1 h2 h3
  · simp at hb
    omega
  · simp at hb
    rcases hb with rfl | rfl <;> omega
  · simp at hb
    rcases hb with rfl | rfl | rfl <;> omega
  · simp at hb
    rcases hb with rfl | rfl | rfl | rfl <;> omega

lemma flatList_mem {α β : Type} (f : α → List β) (l : List α) (b : β)
    (h : b ∈ flatList f l) : ∃ a ∈ l, b ∈ f a := by
  induction l with
  | nil => simp [flatList] at h
  | cons x xs ih =>
      simp only [flatList] at h
      rcases List.mem_append.mp h with h | h
      · exact ⟨x, List.mem_cons_self x xs, h⟩
      · obtain ⟨a, ha, hbm⟩ := ih h
        exact ⟨a, List.mem_cons_of_mem _ ha, hbm⟩

lemma hexDigit_ne_hash (n : Nat) (h : n < 16) : hexDigit n ≠ '#' := by
  interval_cases n <;> decide

lemma ofNat_safe_ne_hash (b : Nat) (h : alwaysSafeByte b = true) : Char.ofNat b ≠ '#' := by
  have hb := of_decide_eq_true h
  have hlt : b < 55296 := by rcases hb with h1 | h1 | h1 | h1 | h1 | h1 | h1 <;> omega
  intro he
  have h2 := congrArg Char.toNat he
  rw [charToNat_ofNat b hlt] at h2
  have h3 : b = 35 := h2.trans (by decide)
  rcases hb with h1 | h1 | h1 | h1 | h1 | h1 | h1 <;> omega

lemma quote_plus_ne_hash (s : List Char) : ∀ c ∈ quote_plus s, c ≠ '#' := by
  intro c hc
  obtain ⟨b, hbmem, hcq⟩ := flatList_mem quoteByteP (flatList utf8Bytes s) c hc
  obtain ⟨ch, _, hbch⟩ := flatList_mem utf8Bytes s b hbmem
  have hb256 : b < 256 := utf8Bytes_lt256 ch b hbch
  by_cases h32 : b = 32
  · simp [quoteByteP, h32] at hcq
    rw [hcq]
    decide
  · by_cases hsafe : alwaysSafeByte b = true
    · simp [quoteByteP, h32, hsafe] at hcq
      rw [hcq]
      exact ofNat_safe_ne_hash b hsafe
    · simp [quoteByteP, h32, hsafe] at hcq
      rcases hcq with h | h | h
      · rw [h]; decide
      · rw [h]; exact hexDigit_ne_hash _ (by omega)
      · rw [h]; exact hexDigit_ne_hash _ (by omega)

lemma urlencode_t_ne_hash (passwd : List Char) : '#' ∉ urlencode [(['t'], passwd)] := by
  intro hm
  simp only [urlencode] at hm
  rcases List.mem_append.mp hm with h | h
  · exact quote_plus_ne_hash ['t'] '#' h rfl
  · rcases List.mem_cons.mp h with h | h
    · exact absurd h (by decide)
    · exact quote_plus_ne_hash passwd '#' h rfl

/-- C8 counterexample: for the tunnel URL ws://example.com/path?x=1 the
query parameter x=1 already present is not preserved: update_url_with_passwd
replaces the whole query component with t=pw, so the claim that existing
query parameters are preserved fails. -/
theorem update_url_query_counterexample :
    (urlparse ("ws://example.com/path?x=1".toList)).query = "x=1".toList ∧
    (urlparse (update_url_with_passwd "ws://example.com/path?x=1".toList "pw".toList)).query =
      "t=pw".toList ∧
    (urlparse (update_url_with_passwd "ws://example.com/path?x=1".toList "pw".toList)).query ≠
      (urlparse ("ws://example.com/path?x=1".toList)).query ∧
    'x' ∉ (urlparse (update_url_with_passwd "ws://example.com/path?x=1".toList
      "pw".toList)).query := by
  decide

/-- C8 amended: appending the credential as query parameter t preserves the
scheme, netloc (host and port), path, params and fragment of the URL, but
replaces the entire query component with the encoding of t=passwd; query
parameters already present are discarded, not preserved. -/
theorem update_url_preserves_components
    (scheme netloc path fragment query0 passwd : List Char)
    (hs : validScheme scheme)
    (hn : netloc ≠ []) (hn2 : netloc.all netlocOk = true)
    (hpath : path = [] ∨ path.headD ' ' = '/')
    (hpq : '?' ∉ path) (hph : '#' ∉ path) (hps : ';' ∉ path)
    (hq0 : '#' ∉ query0) :
    urlparse (update_url_with_passwd
        (urlunparse ⟨scheme, netloc, path, [], query0, fragment⟩) passwd) =
      ⟨scheme, netloc, path, [], urlencode [(['t'], passwd)], fragment⟩ := by
  have h1 := urlparse_roundtrip scheme netloc path query0 fragment
    hs hn hn2 hpath hpq hph hps hq0
  have h2 := urlparse_roundtrip scheme netloc path (urlencode [(['t'], passwd)]) fragment
    hs hn hn2 hpath hpq hph hps (urlencode_t_ne_hash passwd)
  simp only [update_url_with_passwd, h1]
  exact h2

theorem update_url_preserves_components_witness :
    validScheme "ws".toList ∧
    "example.com:8080".toList ≠ [] ∧
    ("example.com:8080".toList).all netlocOk = true ∧
    ("/tunnel".toList = [] ∨ ("/tunnel".toList).headD ' ' = '/') ∧
    '?' ∉ "/tunnel".toList ∧ '#' ∉ "/tunnel".toList ∧ ';' ∉ "/tunnel".toList ∧
    '#' ∉ "x=1".toList ∧
    urlparse (update_url_with_passwd
        (urlunparse ⟨"ws".toList, "example.com:8080".toList, "/tunnel".toList, [],
          "x=1".toList, "frag".toList⟩) "p w".toList) =
      ⟨"ws".toList, "example.com:8080".toList, "/tunnel".toList, [],
        urlencode [(['t'], "p w".toList)], "frag".toList⟩ := by
  refine ⟨⟨by decide, by decide, by decide, by decide⟩, by decide, by decide, by decide,
    by decide, by decide, by decide, by decide, ?_⟩
  exact update_url_preserves_components "ws".toList "example.com:8080".toList "/tunnel".toList
    "frag".toList "x=1".toList "p w".toList
    ⟨by decide, by decide, by decide, by decide⟩ (by decide) (by decide) (by decide)
    (by decide) (by decide) (by decide) (by decide)
